import Mathlib

/-!
Verification of the md2htm byte-level Markdown-to-HTML translator
(`src/mdstate.rs`).  The translator is a single-pass scanner over the
input bytes keeping a chain of construct frames (`MDS`): `current` is the
top frame, `previous` the rest of the chain down to the root.  We embed
the state machine shallowly: bytes are `Nat` (u8 arithmetic is modelled
with wraparound `% 256`, the release-profile semantics), the output is a
`List Nat`, and `parse` returns `Option (List Nat)` where `none` marks
the two inner unwind loops of the source spinning forever (they call
`fall`, which is a no-op on the root, so a non-root bottom frame would
make them diverge).  Diagnostics (`println!` / `eprintln!`) go to a
reporting channel outside the byte-level model and are dropped.
-/

set_option maxRecDepth 20000

/-- Bytes of an ASCII string literal. -/
def sb (s : String) : List Nat := s.data.map Char.toNat

/-- `Linkstatus` from mdstate.rs: `Alt(0)` between `[` and `]`, `Alt(1)`
after `]` expecting `(`, `Link` between `(` and `)`. -/
inductive Linkstatus where
  | alt (stage : Nat)
  | link
deriving DecidableEq

/-- `Linkdata` from mdstate.rs. -/
structure Linkdata where
  status : Linkstatus
  alt : List Nat
  link : List Nat
deriving DecidableEq

def Linkstatus.is_alt : Linkstatus → Bool
  | .alt _ => true
  | .link => false

def Linkstatus.alt_expects_closure : Linkstatus → Bool
  | .alt 0 => true
  | _ => false

def Linkstatus.alt_expects_url : Linkstatus → Bool
  | .alt 1 => true
  | _ => false

def Linkstatus.is_link : Linkstatus → Bool
  | .alt _ => false
  | .link => true

def Linkdata.is_alt (ld : Linkdata) : Bool := ld.status.is_alt

def Linkdata.is_link (ld : Linkdata) : Bool := ld.status.is_link

def Linkdata.alt_expects_closure (ld : Linkdata) : Bool := ld.status.alt_expects_closure

def Linkdata.alt_expects_url (ld : Linkdata) : Bool := ld.status.alt_expects_url

/-- `State` from mdstate.rs (the `IntenData` buffer inlined as a list). -/
inductive State where
  | none
  | header (n : Nat) (p : Bool)
  | paragraph
  | intendation (exp : Bool) (inner : List Nat)
  | bold (seen : Bool)
  | italic (seen : Bool)
  | underscore
  | code (ls : Bool) (n : Nat)
  | link (ld : Linkdata)
  | exclamation
  | image (ld : Linkdata)
  | escape
  | ulist (seen : Bool) (written : Bool)
  | litem
  | hor (n : Nat)
deriving DecidableEq

/-- The tag byte strings from the top of mdstate.rs. -/
def TAG_P_O : List Nat := sb "<p>"
def TAG_P_C : List Nat := sb "</p>"
def TAG_CODEB_O : List Nat := sb "<div class=\"code\"><code class=\"code\">"
def TAG_CODEB_C : List Nat := sb "</code></div>"
def TAG_CODEI_O : List Nat := sb "<span class=\"code\"><code class=\"code\">"
def TAG_CODEI_C : List Nat := sb "</code></span>"
def TAG_INT_O : List Nat := sb "<div class=\"intend\">"
def TAG_INT_C : List Nat := sb "</div>"
def TAG_I_O : List Nat := sb "<i>"
def TAG_I_C : List Nat := sb "</i>"
def TAG_B_O : List Nat := sb "<b>"
def TAG_B_C : List Nat := sb "</b>"
def TAG_U_O : List Nat := sb "<u>"
def TAG_U_C : List Nat := sb "</u>"
def TAG_LI_O : List Nat := sb "<li>"
def TAG_LI_C : List Nat := sb "</li>"
def TAG_UL_O : List Nat := sb "<ul>"
def TAG_UL_C : List Nat := sb "</ul>"
def TAG_HR : List Nat := sb "<hr>"

/-- The state machine `MDS`: `current` is the Rust `current` field, and
`previous` flattens the `Option<Box<MDS>>` chain into a list (head =
immediate parent, last = the bottom frame). -/
structure MDS where
  current : State
  previous : List State
deriving DecidableEq

namespace MDS

/-- `MDS::fall`: pop to the parent frame; on the root it is a no-op
(the source only prints a warning). -/
def fall (m : MDS) : MDS :=
  match m.previous with
  | p :: rest => ⟨p, rest⟩
  | [] => m

/-- `MDS::rise`: push a new top frame. -/
def rise (m : MDS) (top : State) : MDS :=
  ⟨top, m.current :: m.previous⟩

def is_none (m : MDS) : Bool :=
  match m.current with
  | State.none => true
  | _ => false

def is_paragraph (m : MDS) : Bool :=
  match m.current with
  | State.paragraph => true
  | _ => false

def is_ulist (m : MDS) : Bool :=
  match m.current with
  | State.ulist _ true => true
  | _ => false

def is_intend (m : MDS) : Bool :=
  match m.current with
  | State.intendation _ _ => true
  | _ => false

end MDS

/-- The byte mega-range of the first match arm of `MDS::parse`
(`0..10 | 11..13 | 14..32 | 34..35 | 36..40 | 43..45 | 46..91 | 97..=255`). -/
def isLit (b : Nat) : Bool :=
  (b < 10) || (11 ≤ b && b < 13) || (14 ≤ b && b < 32) || (b == 34) ||
  (36 ≤ b && b < 40) || (43 ≤ b && b < 45) || (46 ≤ b && b < 91) ||
  (97 ≤ b && b ≤ 255)

/-- The `while !state_machine.is_none()` loop run after an inline code
span is cut by a newline (mdstate.rs lines 859-865).  Recursion is on the
`previous` chain; `Option.none` is returned exactly when the Rust loop
would spin forever (bottom frame reached with a non-root state: `fall`
no-ops and the guard stays true). -/
def unwindCode : List Nat → State → List State → Option (MDS × List Nat)
  | out, State.none, prev => some (⟨State.none, prev⟩, out)
  | _, _, [] => Option.none
  | out, cur, p :: rest =>
      unwindCode (if cur = State.paragraph then out ++ TAG_P_C else out) p rest

/-- The `loop` run on a newline in `State::Exclamation` (mdstate.rs lines
909-929): close paragraphs/headers downward, stop at an indentation
frame (routing the newline into its buffer) or any other frame (emitting
the newline).  `Option.none` when the Rust loop would spin forever
(paragraph or header at the bottom of the chain). -/
def exclNl (b : Nat) : List Nat → State → List State → Option (MDS × List Nat)
  | out, State.paragraph, p :: rest => exclNl b (out ++ TAG_P_C) p rest
  | out, State.header n _, p :: rest =>
      exclNl b (out ++ sb "</h" ++ [(n + 48) % 256] ++ [62]) p rest
  | _, State.paragraph, [] => Option.none
  | _, State.header _ _, [] => Option.none
  | out, State.intendation _ buf, prev =>
      some (⟨State.intendation true (buf ++ [b]), prev⟩, out)
  | out, cur, prev => some (⟨cur, prev⟩, out ++ [b])

/-- The shared `State::Link(ld) | State::Image(ld)` arm of the literal
byte class (mdstate.rs lines 207-227); `mk` restores the constructor. -/
def litLink (mk : Linkdata → State) (ld : Linkdata) (prev : List State)
    (out : List Nat) (b : Nat) : MDS × List Nat :=
  match ld.status with
  | Linkstatus.alt 0 => (⟨mk { ld with alt := ld.alt ++ [b] }, prev⟩, out)
  | Linkstatus.alt 1 =>
      (MDS.fall ⟨mk ld, prev⟩, out ++ [91] ++ ld.alt ++ [93] ++ [b])
  | Linkstatus.link => (⟨mk { ld with link := ld.link ++ [b] }, prev⟩, out)
  | Linkstatus.alt _ => (⟨mk ld, prev⟩, out)

/-- The shared `State::Link | State::Image` arm for `#` (lines 398-416). -/
def hashLink (mk : Linkdata → State) (ld : Linkdata) (prev : List State)
    (out : List Nat) (b : Nat) : MDS × List Nat :=
  match ld.status with
  | Linkstatus.alt 0 => (⟨mk { ld with alt := ld.alt ++ [b] }, prev⟩, out)
  | Linkstatus.link => (⟨mk { ld with link := ld.link ++ [b] }, prev⟩, out)
  | Linkstatus.alt _ =>
      (MDS.fall ⟨mk ld, prev⟩,
        out ++ [91] ++ ld.alt ++ [93] ++ [40] ++ ld.link ++ [b])

/-- The shared `State::Link | State::Image` arm for `(` (lines 581-601). -/
def parenLink (mk : Linkdata → State) (ld : Linkdata) (prev : List State)
    (out : List Nat) (b : Nat) : MDS × List Nat :=
  if ld.is_alt then
    if ld.alt_expects_url then
      (⟨mk { ld with status := Linkstatus.link }, prev⟩, out)
    else
      (MDS.fall ⟨mk ld, prev⟩, out ++ [91] ++ ld.alt ++ [b])
  else
    (MDS.fall ⟨mk ld, prev⟩,
      out ++ [91] ++ ld.alt ++ [93] ++ [40] ++ ld.link ++ [b])

/-- The shared `State::Link | State::Image` arm for `]` (lines 668-681). -/
def brackLink (mk : Linkdata → State) (ld : Linkdata) (prev : List State)
    (out : List Nat) (b : Nat) : MDS × List Nat :=
  if ld.status.is_alt then
    if ld.alt_expects_closure then
      (⟨mk { ld with status := Linkstatus.alt 1 }, prev⟩, out)
    else
      (MDS.fall ⟨mk ld, prev⟩, out ++ ld.alt ++ [b])
  else
    (⟨mk { ld with link := ld.link ++ [b] }, prev⟩, out)

/-- The `State::Link` / `State::Image` arms for `)` (lines 728-754):
`aOrImg` is the finished tag text (anchor or image). -/
def closeLink (mk : Linkdata → State) (ld : Linkdata) (prev : List State)
    (out : List Nat) (b : Nat) (tag : List Nat) : MDS × List Nat :=
  if ld.is_link then (MDS.fall ⟨mk ld, prev⟩, out ++ tag)
  else (⟨mk ld, prev⟩, out ++ [b])

def anchorTag (ld : Linkdata) : List Nat :=
  sb "<a href=\"" ++ ld.link ++ sb "\">" ++ ld.alt ++ sb "</a>"

def imageTag (ld : Linkdata) : List Nat :=
  sb "<img src=\"" ++ ld.link ++ sb "\" alt=\"" ++ ld.alt ++ sb "\">"

/-- The shared `State::Link | State::Image` arm for CR/LF (lines 882-898). -/
def nlLink (mk : Linkdata → State) (ld : Linkdata) (prev : List State)
    (out : List Nat) (b : Nat) : MDS × List Nat :=
  if ld.is_alt then
    (MDS.fall ⟨mk ld, prev⟩, out ++ [91] ++ ld.alt ++ [b])
  else
    (MDS.fall ⟨mk ld, prev⟩,
      out ++ [91] ++ ld.alt ++ [93] ++ [40] ++ ld.link ++ [b])

/-- The shared `State::Link | State::Image` arm for `_` and `-`
(lines 1218-1224 and 1277-1283). -/
def pushLink (mk : Linkdata → State) (ld : Linkdata) (prev : List State)
    (out : List Nat) (b : Nat) : MDS × List Nat :=
  if ld.is_alt then (⟨mk { ld with alt := ld.alt ++ [b] }, prev⟩, out)
  else (⟨mk { ld with link := ld.link ++ [b] }, prev⟩, out)

namespace MDS

/-- The literal mega-range arm of the byte dispatch (mdstate.rs 159-297). -/
def stepLit (m : MDS) (out : List Nat) (b : Nat) : Option (MDS × List Nat) :=
  match m.current with
  | State.none => some (m.rise State.paragraph, out ++ TAG_P_O ++ [b])
  | State.code ls n =>
      if ls then
        if n = 1 then
          some (⟨State.code false n, m.previous⟩, out ++ TAG_CODEI_O ++ [b])
        else if n = 3 then
          some (⟨State.code false n, m.previous⟩, out ++ TAG_CODEB_O ++ [b])
        else some (m.fall, out ++ [b])
      else some (m, out ++ [b])
  | State.escape =>
      some (m.fall,
        out ++ (if b = 60 then sb "&lt;" else if b = 62 then sb "&gt;" else [b]))
  | State.exclamation => some (m.fall, out ++ [33, b])
  | State.link ld => some (litLink State.link ld m.previous out b)
  | State.image ld => some (litLink State.image ld m.previous out b)
  | State.intendation exp buf =>
      let m1 : MDS := if exp then m.fall else ⟨State.intendation exp [], m.previous⟩
      let o1 := if exp then out ++ TAG_INT_C ++ buf else out ++ buf
      some (m1.rise State.paragraph, o1 ++ TAG_P_O ++ [b])
  | State.italic seen =>
      if seen then some (⟨State.italic false, m.previous⟩, out ++ TAG_I_O ++ [b])
      else some (m, out ++ [b])
  | State.bold seen =>
      if seen then some (⟨State.bold false, m.previous⟩, out ++ [42, b])
      else some (m, out ++ [b])
  | State.ulist _ written =>
      let o1 := out ++ (if written then TAG_UL_C else []) ++ TAG_P_C
      let m1 := m.fall.fall
      let r : MDS × List Nat :=
        match m1.current with
        | State.intendation _ buf => (m1.fall, o1 ++ TAG_INT_C ++ buf)
        | _ => (m1, o1)
      some (r.1.rise State.paragraph, r.2 ++ TAG_P_O ++ [b])
  | _ => some (m, out ++ [b])

/-- The `b'!'` arm (mdstate.rs 299-323). -/
def stepBang (m : MDS) (out : List Nat) (b : Nat) : Option (MDS × List Nat) :=
  match m.current with
  | State.escape => some (m.fall, out ++ [b])
  | State.exclamation => some (m, out ++ [b])
  | State.link _ => some (m, out ++ [b])
  | State.image _ => some (m, out ++ [b])
  | State.code _ _ => some (m, out ++ [b])
  | State.intendation exp buf =>
      let r : MDS × List Nat :=
        if exp then (m.fall, out ++ TAG_INT_C ++ buf) else (m, out)
      some (r.1.rise State.exclamation, r.2)
  | _ => some (m.rise State.exclamation, out)

/-- The `b'\\'` arm (mdstate.rs 325-337). -/
def stepBackslash (m : MDS) (out : List Nat) (b : Nat) : Option (MDS × List Nat) :=
  match m.current with
  | State.escape => some (m.fall, out ++ [b])
  | State.exclamation => some ((m.fall).rise State.escape, out ++ [33])
  | _ => some (m.rise State.escape, out)

/-- The `b'#'` arm (mdstate.rs 339-421). -/
def stepHash (m : MDS) (out : List Nat) (b : Nat) : Option (MDS × List Nat) :=
  match m.current with
  | State.none => some (m.rise (State.header 1 false), out)
  | State.intendation exp buf =>
      let r : MDS × List Nat :=
        if exp then (m.fall, out ++ TAG_INT_C ++ buf) else (m, out)
      some (r.1.rise (State.header 1 false), r.2)
  | State.header n p =>
      if n < 6 then some (⟨State.header (n + 1) p, m.previous⟩, out)
      else some (m, out)
  | State.escape => some (m.fall, out ++ [b])
  | State.exclamation => some (m.fall, out ++ [33, b])
  | State.code ls n =>
      if ls then
        if n = 1 then
          some (⟨State.code false n, m.previous⟩, out ++ TAG_CODEI_O ++ [b])
        else if n = 3 then
          some (⟨State.code false n, m.previous⟩, out ++ TAG_CODEB_O ++ [b])
        else some (m.fall, out ++ [b, b])
      else some (m, out ++ [b])
  | State.link ld => some (hashLink State.link ld m.previous out b)
  | State.image ld => some (hashLink State.image ld m.previous out b)
  | _ => some (m, out ++ [b])

/-- The `b' '` arm (mdstate.rs 423-529). -/
def stepSpace (m : MDS) (out : List Nat) (b : Nat) : Option (MDS × List Nat) :=
  match m.current with
  | State.none =>
      some (m.rise (State.intendation false []), out ++ TAG_INT_O)
  | State.header n p =>
      if !p then
        some (⟨State.header n true, m.previous⟩, out ++ [60, 104, (n + 48) % 256, 62])
      else some (m, out ++ [b])
  | State.code prv count =>
      if prv then
        if count = 1 then
          some (⟨State.code false count, m.previous⟩, out ++ TAG_CODEI_O ++ [b])
        else if count = 3 then
          some (⟨State.code false count, m.previous⟩, out ++ TAG_CODEB_O ++ [b])
        else some (m.fall, out ++ [b])
      else some (m, out ++ [b])
  | State.italic seen =>
      if seen then some (⟨State.italic false, m.previous⟩, out ++ TAG_I_O ++ [b])
      else some (m, out ++ [b])
  | State.bold seen =>
      if seen then some (⟨State.bold false, m.previous⟩, out ++ TAG_B_O ++ [b])
      else some (m, out ++ [b])
  | State.link ld =>
      if ld.status.is_link then some (m, out ++ sb "%20")
      else if ld.status.alt_expects_url then
        some (m.fall, out ++ [91] ++ ld.alt ++ [93] ++ [b])
      else
        some (⟨State.link { ld with alt := ld.alt ++ [b] }, m.previous⟩, out)
  | State.intendation _ buf =>
      some (⟨State.intendation false buf, m.previous⟩, out)
  | State.escape => some (m.fall, out ++ [b])
  | State.exclamation => some (m.fall, out ++ [33, b])
  | State.ulist seen written =>
      if seen then
        some ((⟨State.ulist false true, m.previous⟩ : MDS).rise State.litem,
          out ++ (if !written then TAG_UL_O else []) ++ TAG_LI_O)
      else some (m, out)
  | _ => some (m, out ++ [b])

/-- The `b'['` arm (mdstate.rs 531-578). -/
def stepLBrack (m : MDS) (out : List Nat) (b : Nat) : Option (MDS × List Nat) :=
  match m.current with
  | State.link ld =>
      if ld.is_link then
        some (⟨State.link { ld with link := ld.link ++ [b] }, m.previous⟩, out)
      else some (m, out)
  | State.image ld =>
      if ld.is_link then
        some (⟨State.image { ld with link := ld.link ++ [b] }, m.previous⟩, out)
      else some (m, out)
  | State.escape => some (m.fall, out ++ [b])
  | State.exclamation =>
      some (⟨State.image ⟨Linkstatus.alt 0, [], []⟩, m.previous⟩, out)
  | State.intendation exp buf =>
      let r : MDS × List Nat :=
        if exp then (m.fall, out ++ TAG_INT_C ++ buf) else (m, out)
      some (r.1.rise (State.link ⟨Linkstatus.alt 0, [], []⟩), r.2)
  | State.ulist _ written =>
      some ((m.fall.fall).rise (State.link ⟨Linkstatus.alt 0, [], []⟩),
        out ++ (if written then TAG_UL_C else []) ++ TAG_P_C)
  | _ => some (m.rise (State.link ⟨Linkstatus.alt 0, [], []⟩), out)

/-- The `b'('` arm (mdstate.rs 580-665). -/
def stepLParen (m : MDS) (out : List Nat) (b : Nat) : Option (MDS × List Nat) :=
  match m.current with
  | State.link ld => some (parenLink State.link ld m.previous out b)
  | State.image ld => some (parenLink State.image ld m.previous out b)
  | State.escape => some (m.fall, out ++ [b])
  | State.intendation _ buf =>
      some (⟨State.paragraph, m.previous⟩,
        out ++ TAG_INT_C ++ buf ++ TAG_P_O ++ [b])
  | State.exclamation =>
      match (m.fall).current with
      | State.link ld => some (parenLink State.link ld (m.fall).previous (out ++ [33]) b)
      | State.image ld => some (parenLink State.image ld (m.fall).previous (out ++ [33]) b)
      | _ => some (m.fall, out ++ [33, b])
  | State.ulist _ written =>
      some (m.fall,
        out ++ (if written then TAG_UL_C else []) ++ TAG_P_C ++ TAG_P_O ++ [b])
  | _ => some (m, out ++ [b])

/-- The `b']'` arm (mdstate.rs 667-725). -/
def stepRBrack (m : MDS) (out : List Nat) (b : Nat) : Option (MDS × List Nat) :=
  match m.current with
  | State.link ld => some (brackLink State.link ld m.previous out b)
  | State.image ld => some (brackLink State.image ld m.previous out b)
  | State.escape => some (m.fall, out ++ [b])
  | State.exclamation =>
      match (m.fall).current with
      | State.link ld => some (brackLink State.link ld (m.fall).previous (out ++ [33]) b)
      | State.image ld => some (brackLink State.image ld (m.fall).previous (out ++ [33]) b)
      | _ => some (m.fall, out ++ [33, b])
  | State.intendation _ buf =>
      some (⟨State.paragraph, m.previous⟩,
        out ++ TAG_INT_C ++ buf ++ TAG_P_O ++ [b])
  | _ => some (m, out ++ [b])

/-- The `b')'` arm (mdstate.rs 727-809). -/
def stepRParen (m : MDS) (out : List Nat) (b : Nat) : Option (MDS × List Nat) :=
  match m.current with
  | State.link ld => some (closeLink State.link ld m.previous out b (anchorTag ld))
  | State.image ld => some (closeLink State.image ld m.previous out b (imageTag ld))
  | State.escape => some (m.fall, out ++ [b])
  | State.intendation _ buf =>
      some (⟨State.paragraph, m.previous⟩,
        out ++ TAG_INT_C ++ buf ++ TAG_P_O ++ [b])
  | State.exclamation =>
      match (m.fall).current with
      | State.link ld =>
          some (closeLink State.link ld (m.fall).previous (out ++ [33]) b (anchorTag ld))
      | State.image ld =>
          some (closeLink State.image ld (m.fall).previous (out ++ [33]) b (imageTag ld))
      | _ => some (m.fall, out ++ [33, b])
  | _ => some (m, out ++ [b])

/-- The `b'\r' | b'\n'` arm (mdstate.rs 811-952). -/
def stepNewline (m : MDS) (out : List Nat) (b : Nat) : Option (MDS × List Nat) :=
  match m.current with
  | State.none => some (m, out ++ [b])
  | State.header n _ =>
      some (m.fall, out ++ sb "</h" ++ [(n + 48) % 256] ++ [62] ++ [b])
  | State.paragraph =>
      match (m.fall).current with
      | State.intendation _ buf =>
          some (⟨State.intendation true (buf ++ [b]), (m.fall).previous⟩, out ++ TAG_P_C)
      | _ => some (m.fall, out ++ TAG_P_C ++ [b])
  | State.code _ count =>
      if count = 1 then
        match unwindCode (out ++ TAG_CODEI_C) m.fall.current m.fall.previous with
        | some (m2, o2) => some (m2, o2 ++ [b])
        | Option.none => Option.none
      else if count = 2 then some (m.fall, out ++ [b])
      else some (m, out ++ [b])
  | State.escape => some (m.fall, out ++ [b])
  | State.link ld => some (nlLink State.link ld m.previous out b)
  | State.image ld => some (nlLink State.image ld m.previous out b)
  | State.intendation _ buf =>
      some (⟨State.intendation true (buf ++ [b]), m.previous⟩, out)
  | State.exclamation =>
      exclNl b (out ++ [33]) m.fall.current m.fall.previous
  | State.litem => some (m.fall, out ++ TAG_LI_C ++ [b])
  | State.ulist seen _ =>
      if seen then some (m.fall.fall, out ++ [b] ++ TAG_P_C)
      else some (m, out ++ [b])
  | State.hor n =>
      if 3 ≤ n then some (m.fall.fall, out ++ TAG_HR ++ [b])
      else some (m, out ++ [b])
  | _ => some (m, out ++ [b])

/-- The backtick arm (mdstate.rs 954-1029). -/
def stepTick (m : MDS) (out : List Nat) (b : Nat) : Option (MDS × List Nat) :=
  match m.current with
  | State.none =>
      some ((m.rise State.paragraph).rise (State.code true 1), out ++ TAG_P_O)
  | State.code ls n =>
      let x := (n + 1) % 256
      if ls then
        if x = 6 then
          some ((⟨State.code ls x, m.previous⟩ : MDS).fall, out ++ TAG_CODEB_C)
        else some (⟨State.code ls x, m.previous⟩, out)
      else
        if x = 2 then some (m.fall, out ++ TAG_CODEI_C)
        else some (⟨State.code true x, m.previous⟩, out)
  | State.escape => some (m.fall, out ++ [b])
  | State.intendation exp buf =>
      if !exp then
        some ((m.rise State.paragraph).rise (State.code true 1), out ++ TAG_P_O)
      else
        some (⟨State.code true 1, m.previous⟩,
          out ++ TAG_INT_C ++ buf ++ TAG_P_O)
  | State.exclamation =>
      some (⟨State.code true 1, m.previous⟩, out ++ [33])
  | State.italic seen =>
      if seen then
        some ((⟨State.italic false, m.previous⟩ : MDS).rise (State.code true 1),
          out ++ TAG_I_O)
      else some (m.rise (State.code true 1), out)
  | State.bold seen =>
      if seen then
        some ((⟨State.bold false, m.previous⟩ : MDS).rise (State.code true 1),
          out ++ [42])
      else some (m.rise (State.code true 1), out)
  | _ => some (m.rise (State.code true 1), out)

/-- The `b'*'` arm (mdstate.rs 1031-1155). -/
def stepStar (m : MDS) (out : List Nat) (b : Nat) : Option (MDS × List Nat) :=
  match m.current with
  | State.none =>
      some ((m.rise State.paragraph).rise (State.italic true), out ++ TAG_P_O)
  | State.paragraph => some (m.rise (State.italic true), out)
  | State.intendation exp buf =>
      if exp then
        some (((m.fall).rise State.paragraph).rise (State.italic true),
          out ++ TAG_INT_C ++ buf ++ TAG_P_O)
      else
        some ((m.rise State.paragraph).rise (State.italic true), out ++ TAG_P_O)
  | State.escape =>
      match (m.fall).current with
      | State.none => some ((m.fall).rise State.paragraph, out ++ TAG_P_O ++ [b])
      | State.intendation exp buf =>
          if exp then
            some (((m.fall).fall).rise State.paragraph,
              out ++ TAG_INT_C ++ buf ++ TAG_P_O ++ [b])
          else some ((m.fall).rise State.paragraph, out ++ TAG_P_O ++ [b])
      | _ => some (m.fall, out ++ [b])
  | State.code ls n =>
      if ls then
        if n = 1 then
          some (⟨State.code false n, m.previous⟩, out ++ TAG_CODEI_O ++ [b])
        else if n = 3 then
          some (⟨State.code false n, m.previous⟩, out ++ TAG_CODEB_O ++ [b])
        else some (m.fall, out ++ [b])
      else some (m, out ++ [b])
  | State.exclamation =>
      some (⟨State.italic true, m.previous⟩, out ++ [33])
  | State.header _ _ => some (m.rise (State.italic true), out)
  | State.italic seen =>
      if seen then some (⟨State.bold false, m.previous⟩, out ++ TAG_B_O)
      else some (m.fall, out ++ TAG_I_C)
  | State.bold seen =>
      if seen then some (m.fall, out ++ TAG_B_C)
      else some (⟨State.bold true, m.previous⟩, out)
  | State.underscore => some (m.rise (State.italic true), out)
  | _ => some (m, out ++ [b])

/-- The `b'_'` arm (mdstate.rs 1157-1227). -/
def stepUnder (m : MDS) (out : List Nat) (b : Nat) : Option (MDS × List Nat) :=
  match m.current with
  | State.none =>
      some ((m.rise State.paragraph).rise State.underscore, out ++ TAG_P_O)
  | State.paragraph => some (m.rise State.underscore, out)
  | State.header _ _ => some (m.rise State.underscore, out)
  | State.intendation exp buf =>
      if exp then
        some (((m.fall).rise State.paragraph).rise State.underscore,
          out ++ TAG_INT_C ++ buf ++ TAG_P_O ++ TAG_U_O)
      else some (m.rise State.underscore, out ++ TAG_U_O)
  | State.bold seen =>
      if seen then
        some ((⟨State.bold false, m.previous⟩ : MDS).rise State.underscore,
          out ++ [42] ++ TAG_U_O)
      else some (m.rise State.underscore, out ++ TAG_U_O)
  | State.italic seen =>
      if seen then
        some (((m.rise (State.italic false)).rise State.underscore),
          out ++ TAG_I_O ++ TAG_U_O)
      else some (m.rise State.underscore, out ++ TAG_U_O)
  | State.underscore => some (m.fall, out ++ TAG_U_C)
  | State.escape => some (m.fall, out ++ [b])
  | State.exclamation => some ((m.fall).rise State.underscore, out ++ [33])
  | State.link ld => some (pushLink State.link ld m.previous out b)
  | State.image ld => some (pushLink State.image ld m.previous out b)
  | _ => some (m, out ++ [b])

/-- The `b'-'` arm (mdstate.rs 1229-1286). -/
def stepDash (m : MDS) (out : List Nat) (b : Nat) : Option (MDS × List Nat) :=
  match m.current with
  | State.none =>
      some ((m.rise State.paragraph).rise (State.ulist true false), out ++ TAG_P_O)
  | State.intendation exp buf =>
      let r : MDS × List Nat :=
        if exp then (m.fall, out ++ TAG_INT_C ++ buf)
        else (⟨State.intendation exp [], m.previous⟩, out ++ buf)
      some ((r.1.rise State.paragraph).rise (State.ulist true false),
        r.2 ++ TAG_P_O)
  | State.ulist true false => some (⟨State.hor 2, m.previous⟩, out)
  | State.ulist true true => some ((m.fall).rise (State.hor 2), out ++ TAG_UL_C)
  | State.ulist false p => some (⟨State.ulist true p, m.previous⟩, out)
  | State.hor n => some (⟨State.hor ((n + 1) % 256), m.previous⟩, out)
  | State.escape => some (m.fall, out ++ [b])
  | State.exclamation => some (m.fall, out ++ [33, b])
  | State.link ld => some (pushLink State.link ld m.previous out b)
  | State.image ld => some (pushLink State.image ld m.previous out b)
  | _ => some (m, out ++ [b])

/-- One iteration of the `for byte in bytes` loop of `MDS::parse`:
dispatch on the byte class, then on the current top frame, mirroring the
source arm for arm (one definition per byte class above).  Returns
`Option.none` exactly when one of the two inner loops would diverge. -/
def step (m : MDS) (out : List Nat) (b : Nat) : Option (MDS × List Nat) :=
  if isLit b then stepLit m out b
  else if b = 33 then stepBang m out b
  else if b = 92 then stepBackslash m out b
  else if b = 35 then stepHash m out b
  else if b = 32 then stepSpace m out b
  else if b = 91 then stepLBrack m out b
  else if b = 40 then stepLParen m out b
  else if b = 93 then stepRBrack m out b
  else if b = 41 then stepRParen m out b
  else if b = 13 || b = 10 then stepNewline m out b
  else if b = 96 then stepTick m out b
  else if b = 42 then stepStar m out b
  else if b = 95 then stepUnder m out b
  else if b = 45 then stepDash m out b
  else some (m, out ++ [b])

/-- The `for byte in bytes` loop. -/
def run : List Nat → MDS → List Nat → Option (MDS × List Nat)
  | [], m, out => some (m, out)
  | b :: rest, m, out =>
      match step m out b with
      | some (m', out') => run rest m' out'
      | Option.none => Option.none

/-- The end-of-input unwind of `MDS::parse` (lines 1294-1309). -/
def finish (m : MDS) (out : List Nat) : List Nat :=
  let r1 : MDS × List Nat := if m.is_ulist then (m.fall, out ++ TAG_UL_C) else (m, out)
  let r2 : MDS × List Nat :=
    if r1.1.is_paragraph then (r1.1.fall, r1.2 ++ TAG_P_C) else r1
  if r2.1.is_intend then r2.2 ++ TAG_INT_C else r2.2

/-- `MDS::parse`: fold `step` over the input from the fresh root machine,
then unwind.  `Option.none` marks divergence of an inner loop (proved
unreachable below). -/
def parse (bytes : List Nat) : Option (List Nat) :=
  match run bytes ⟨State.none, []⟩ [] with
  | some (m, out) => some (finish m out)
  | Option.none => Option.none

end MDS

/-! ## The root invariant

The chain of frames always has the initial root frame (`State.none`) at
its bottom: no dispatch rule replaces the bottom frame's state or pops
it.  This is what makes the two inner loops of the source terminate. -/

/-- The bottom frame of a chain (`current` when `previous` is empty). -/
def bottomOf : State → List State → State
  | c, [] => c
  | _, q :: rest => bottomOf q rest

/-- The machine still has the root `State.none` frame at the bottom of
its chain. -/
def isRooted (m : MDS) : Prop := bottomOf m.current m.previous = State.none

theorem rooted_nil (c : State) : isRooted ⟨c, []⟩ ↔ c = State.none := by
  simp [isRooted, bottomOf]

theorem rooted_cons (s c : State) (p : List State) :
    isRooted ⟨s, c :: p⟩ ↔ isRooted ⟨c, p⟩ := by
  simp [isRooted, bottomOf]

theorem rooted_rise {m : MDS} (s : State) (h : isRooted m) : isRooted (m.rise s) := by
  obtain ⟨c, prev⟩ := m
  simpa [MDS.rise, rooted_cons] using h

theorem rooted_fall {m : MDS} (h : isRooted m) : isRooted m.fall := by
  obtain ⟨c, prev⟩ := m
  cases prev with
  | nil => simpa [MDS.fall] using h
  | cons q rest => simpa [MDS.fall, rooted_cons] using h

theorem rooted_set {c : State} {prev : List State} (s : State)
    (h : isRooted ⟨c, prev⟩) (hc : c ≠ State.none) : isRooted ⟨s, prev⟩ := by
  cases prev with
  | nil => exact absurd ((rooted_nil c).mp h) hc
  | cons q rest => rw [rooted_cons] at h ⊢; exact h

theorem rooted_prev_ne {c : State} {prev : List State}
    (h : isRooted ⟨c, prev⟩) (hc : c ≠ State.none) : ∃ q rest, prev = q :: rest := by
  cases prev with
  | nil => exact absurd ((rooted_nil c).mp h) hc
  | cons q rest => exact ⟨q, rest, rfl⟩

theorem unwindCode_rooted :
    ∀ (prev : List State) (cur : State) (out : List Nat), isRooted ⟨cur, prev⟩ →
      ∃ m' o', unwindCode out cur prev = some (m', o') ∧ isRooted m' := by
  intro prev
  induction prev with
  | nil =>
    intro cur out h
    rw [rooted_nil] at h
    subst h
    exact ⟨_, _, rfl, by rw [rooted_nil]⟩
  | cons q rest ih =>
    intro cur out h
    cases cur <;>
      first
        | exact ⟨_, _, rfl, h⟩
        | (rw [rooted_cons] at h; simp only [unwindCode]; exact ih q _ h)

theorem exclNl_rooted :
    ∀ (prev : List State) (cur : State) (b : Nat) (out : List Nat), isRooted ⟨cur, prev⟩ →
      ∃ m' o', exclNl b out cur prev = some (m', o') ∧ isRooted m' := by
  intro prev
  induction prev with
  | nil =>
    intro cur b out h
    rw [rooted_nil] at h
    subst h
    exact ⟨_, _, rfl, by rw [rooted_nil]⟩
  | cons q rest ih =>
    intro cur b out h
    cases cur <;>
      first
        | exact ⟨_, _, rfl, h⟩
        | exact ⟨_, _, rfl, by rw [rooted_cons] at h ⊢; exact h⟩
        | (rw [rooted_cons] at h; simp only [exclNl]; exact ih q _ _ h)


/-- Postcondition of one dispatch step: it returns a machine (no inner
loop divergence) and the machine is still rooted. -/
def stepOK (r : Option (MDS × List Nat)) : Prop :=
  ∃ m' o', r = some (m', o') ∧ isRooted m'

theorem stepOK_some {M : MDS} (O : List Nat) (h : isRooted M) : stepOK (some (M, O)) :=
  ⟨M, O, rfl, h⟩

theorem stepLit_rooted (cur : State) (prev : List State) (out : List Nat) (b : Nat)
    (h : isRooted ⟨cur, prev⟩) : stepOK (MDS.stepLit ⟨cur, prev⟩ out b) := by
  cases cur
  all_goals try exact stepOK_some _ h
  case ulist seen written =>
    obtain ⟨q, rest, rfl⟩ := rooted_prev_ne h (fun hh => State.noConfusion hh)
    rcases rest with _ | ⟨r, rest2⟩
    all_goals simp only [MDS.stepLit, MDS.fall]
    all_goals repeat' split
    all_goals
      first
      | exact stepOK_some _ h
      | exact stepOK_some _ (rooted_fall h)
      | exact stepOK_some _ (rooted_fall (rooted_fall h))
      | exact stepOK_some _ (rooted_rise _ (rooted_fall (rooted_fall h)))
      | exact stepOK_some _ (rooted_rise _ (rooted_fall (rooted_fall (rooted_fall h))))
      | exact stepOK_some _ (rooted_set _ h (fun hh => State.noConfusion hh))
      | exact stepOK_some _ (rooted_fall (rooted_set _ h (fun hh => State.noConfusion hh)))
      | exact stepOK_some _ (rooted_set _ ((rooted_cons _ _ _).mp h) (fun hh => State.noConfusion hh))
      | exact stepOK_some _ (rooted_fall ((rooted_cons _ _ _).mp h))
      | exact stepOK_some _ ((rooted_cons _ _ _).mp h)
      | exact stepOK_some _ ((rooted_cons _ _ _).mp ((rooted_cons _ _ _).mp h))
      | exact stepOK_some _ (rooted_fall ((rooted_cons _ _ _).mp ((rooted_cons _ _ _).mp h)))
      | exact absurd ((rooted_nil _).mp ((rooted_cons _ _ _).mp h)) (fun hh => State.noConfusion hh)
  all_goals
    obtain ⟨q, rest, rfl⟩ := rooted_prev_ne h (fun hh => State.noConfusion hh)
    simp only [MDS.stepLit, MDS.fall, litLink]
    repeat' split
    all_goals
      first
      | exact stepOK_some _ h
      | exact stepOK_some _ (rooted_fall h)
      | exact stepOK_some _ (rooted_fall (rooted_fall h))
      | exact stepOK_some _ (rooted_rise _ (rooted_fall (rooted_fall h)))
      | exact stepOK_some _ (rooted_rise _ (rooted_fall (rooted_fall (rooted_fall h))))
      | exact stepOK_some _ (rooted_set _ h (fun hh => State.noConfusion hh))
      | exact stepOK_some _ (rooted_fall (rooted_set _ h (fun hh => State.noConfusion hh)))
      | exact stepOK_some _ (rooted_set _ ((rooted_cons _ _ _).mp h) (fun hh => State.noConfusion hh))
      | exact stepOK_some _ (rooted_fall ((rooted_cons _ _ _).mp h))
      | exact stepOK_some _ ((rooted_cons _ _ _).mp h)
      | exact stepOK_some _ ((rooted_cons _ _ _).mp ((rooted_cons _ _ _).mp h))
      | exact stepOK_some _ (rooted_fall ((rooted_cons _ _ _).mp ((rooted_cons _ _ _).mp h)))
      | exact absurd ((rooted_nil _).mp ((rooted_cons _ _ _).mp h)) (fun hh => State.noConfusion hh)

theorem stepBang_rooted (cur : State) (prev : List State) (out : List Nat) (b : Nat)
    (h : isRooted ⟨cur, prev⟩) : stepOK (MDS.stepBang ⟨cur, prev⟩ out b) := by
  cases cur
  all_goals try exact stepOK_some _ h
  all_goals
    obtain ⟨q, rest, rfl⟩ := rooted_prev_ne h (fun hh => State.noConfusion hh)
    simp only [MDS.stepBang, MDS.fall, litLink, hashLink, parenLink, brackLink,
      closeLink, nlLink, pushLink]
    repeat' split
    all_goals
      first
      | exact stepOK_some _ h
      | exact stepOK_some _ (rooted_fall h)
      | exact stepOK_some _ (rooted_fall (rooted_fall h))
      | exact stepOK_some _ (rooted_rise _ (rooted_fall (rooted_fall h)))
      | exact stepOK_some _ (rooted_rise _ (rooted_fall (rooted_fall (rooted_fall h))))
      | exact stepOK_some _ (rooted_set _ h (fun hh => State.noConfusion hh))
      | exact stepOK_some _ (rooted_fall (rooted_set _ h (fun hh => State.noConfusion hh)))
      | exact stepOK_some _ (rooted_set _ ((rooted_cons _ _ _).mp h) (fun hh => State.noConfusion hh))
      | exact stepOK_some _ (rooted_fall ((rooted_cons _ _ _).mp h))
      | exact stepOK_some _ ((rooted_cons _ _ _).mp h)
      | exact stepOK_some _ ((rooted_cons _ _ _).mp ((rooted_cons _ _ _).mp h))
      | exact stepOK_some _ (rooted_fall ((rooted_cons _ _ _).mp ((rooted_cons _ _ _).mp h)))
      | exact absurd ((rooted_nil _).mp ((rooted_cons _ _ _).mp h)) (fun hh => State.noConfusion hh)

theorem stepBackslash_rooted (cur : State) (prev : List State) (out : List Nat) (b : Nat)
    (h : isRooted ⟨cur, prev⟩) : stepOK (MDS.stepBackslash ⟨cur, prev⟩ out b) := by
  cases cur
  all_goals try exact stepOK_some _ h
  all_goals
    obtain ⟨q, rest, rfl⟩ := rooted_prev_ne h (fun hh => State.noConfusion hh)
    simp only [MDS.stepBackslash, MDS.fall, litLink, hashLink, parenLink, brackLink,
      closeLink, nlLink, pushLink]
    repeat' split
    all_goals
      first
      | exact stepOK_some _ h
      | exact stepOK_some _ (rooted_fall h)
      | exact stepOK_some _ (rooted_fall (rooted_fall h))
      | exact stepOK_some _ (rooted_rise _ (rooted_fall (rooted_fall h)))
      | exact stepOK_some _ (rooted_rise _ (rooted_fall (rooted_fall (rooted_fall h))))
      | exact stepOK_some _ (rooted_set _ h (fun hh => State.noConfusion hh))
      | exact stepOK_some _ (rooted_fall (rooted_set _ h (fun hh => State.noConfusion hh)))
      | exact stepOK_some _ (rooted_set _ ((rooted_cons _ _ _).mp h) (fun hh => State.noConfusion hh))
      | exact stepOK_some _ (rooted_fall ((rooted_cons _ _ _).mp h))
      | exact stepOK_some _ ((rooted_cons _ _ _).mp h)
      | exact stepOK_some _ ((rooted_cons _ _ _).mp ((rooted_cons _ _ _).mp h))
      | exact stepOK_some _ (rooted_fall ((rooted_cons _ _ _).mp ((rooted_cons _ _ _).mp h)))
      | exact absurd ((rooted_nil _).mp ((rooted_cons _ _ _).mp h)) (fun hh => State.noConfusion hh)

theorem stepHash_rooted (cur : State) (prev : List State) (out : List Nat) (b : Nat)
    (h : isRooted ⟨cur, prev⟩) : stepOK (MDS.stepHash ⟨cur, prev⟩ out b) := by
  cases cur
  all_goals try exact stepOK_some _ h
  all_goals
    obtain ⟨q, rest, rfl⟩ := rooted_prev_ne h (fun hh => State.noConfusion hh)
    simp only [MDS.stepHash, MDS.fall, litLink, hashLink, parenLink, brackLink,
      closeLink, nlLink, pushLink]
    repeat' split
    all_goals
      first
      | exact stepOK_some _ h
      | exact stepOK_some _ (rooted_fall h)
      | exact stepOK_some _ (rooted_fall (rooted_fall h))
      | exact stepOK_some _ (rooted_rise _ (rooted_fall (rooted_fall h)))
      | exact stepOK_some _ (rooted_rise _ (rooted_fall (rooted_fall (rooted_fall h))))
      | exact stepOK_some _ (rooted_set _ h (fun hh => State.noConfusion hh))
      | exact stepOK_some _ (rooted_fall (rooted_set _ h (fun hh => State.noConfusion hh)))
      | exact stepOK_some _ (rooted_set _ ((rooted_cons _ _ _).mp h) (fun hh => State.noConfusion hh))
      | exact stepOK_some _ (rooted_fall ((rooted_cons _ _ _).mp h))
      | exact stepOK_some _ ((rooted_cons _ _ _).mp h)
      | exact stepOK_some _ ((rooted_cons _ _ _).mp ((rooted_cons _ _ _).mp h))
      | exact stepOK_some _ (rooted_fall ((rooted_cons _ _ _).mp ((rooted_cons _ _ _).mp h)))
      | exact absurd ((rooted_nil _).mp ((rooted_cons _ _ _).mp h)) (fun hh => State.noConfusion hh)

theorem stepSpace_rooted (cur : State) (prev : List State) (out : List Nat) (b : Nat)
    (h : isRooted ⟨cur, prev⟩) : stepOK (MDS.stepSpace ⟨cur, prev⟩ out b) := by
  cases cur
  all_goals try exact stepOK_some _ h
  all_goals
    obtain ⟨q, rest, rfl⟩ := rooted_prev_ne h (fun hh => State.noConfusion hh)
    simp only [MDS.stepSpace, MDS.fall, litLink, hashLink, parenLink, brackLink,
      closeLink, nlLink, pushLink]
    repeat' split
    all_goals
      first
      | exact stepOK_some _ h
      | exact stepOK_some _ (rooted_fall h)
      | exact stepOK_some _ (rooted_fall (rooted_fall h))
      | exact stepOK_some _ (rooted_rise _ (rooted_fall (rooted_fall h)))
      | exact stepOK_some _ (rooted_rise _ (rooted_fall (rooted_fall (rooted_fall h))))
      | exact stepOK_some _ (rooted_set _ h (fun hh => State.noConfusion hh))
      | exact stepOK_some _ (rooted_fall (rooted_set _ h (fun hh => State.noConfusion hh)))
      | exact stepOK_some _ (rooted_set _ ((rooted_cons _ _ _).mp h) (fun hh => State.noConfusion hh))
      | exact stepOK_some _ (rooted_fall ((rooted_cons _ _ _).mp h))
      | exact stepOK_some _ ((rooted_cons _ _ _).mp h)
      | exact stepOK_some _ ((rooted_cons _ _ _).mp ((rooted_cons _ _ _).mp h))
      | exact stepOK_some _ (rooted_fall ((rooted_cons _ _ _).mp ((rooted_cons _ _ _).mp h)))
      | exact absurd ((rooted_nil _).mp ((rooted_cons _ _ _).mp h)) (fun hh => State.noConfusion hh)

theorem stepLBrack_rooted (cur : State) (prev : List State) (out : List Nat) (b : Nat)
    (h : isRooted ⟨cur, prev⟩) : stepOK (MDS.stepLBrack ⟨cur, prev⟩ out b) := by
  cases cur
  all_goals try exact stepOK_some _ h
  all_goals
    obtain ⟨q, rest, rfl⟩ := rooted_prev_ne h (fun hh => State.noConfusion hh)
    simp only [MDS.stepLBrack, MDS.fall, litLink, hashLink, parenLink, brackLink,
      closeLink, nlLink, pushLink]
    repeat' split
    all_goals
      first
      | exact stepOK_some _ h
      | exact stepOK_some _ (rooted_fall h)
      | exact stepOK_some _ (rooted_fall (rooted_fall h))
      | exact stepOK_some _ (rooted_rise _ (rooted_fall (rooted_fall h)))
      | exact stepOK_some _ (rooted_rise _ (rooted_fall (rooted_fall (rooted_fall h))))
      | exact stepOK_some _ (rooted_set _ h (fun hh => State.noConfusion hh))
      | exact stepOK_some _ (rooted_fall (rooted_set _ h (fun hh => State.noConfusion hh)))
      | exact stepOK_some _ (rooted_set _ ((rooted_cons _ _ _).mp h) (fun hh => State.noConfusion hh))
      | exact stepOK_some _ (rooted_fall ((rooted_cons _ _ _).mp h))
      | exact stepOK_some _ ((rooted_cons _ _ _).mp h)
      | exact stepOK_some _ ((rooted_cons _ _ _).mp ((rooted_cons _ _ _).mp h))
      | exact stepOK_some _ (rooted_fall ((rooted_cons _ _ _).mp ((rooted_cons _ _ _).mp h)))
      | exact absurd ((rooted_nil _).mp ((rooted_cons _ _ _).mp h)) (fun hh => State.noConfusion hh)

theorem stepLParen_rooted (cur : State) (prev : List State) (out : List Nat) (b : Nat)
    (h : isRooted ⟨cur, prev⟩) : stepOK (MDS.stepLParen ⟨cur, prev⟩ out b) := by
  cases cur
  all_goals try exact stepOK_some _ h
  all_goals
    obtain ⟨q, rest, rfl⟩ := rooted_prev_ne h (fun hh => State.noConfusion hh)
    simp only [MDS.stepLParen, MDS.fall, litLink, hashLink, parenLink, brackLink,
      closeLink, nlLink, pushLink]
    repeat' split
    all_goals
      first
      | exact stepOK_some _ h
      | exact stepOK_some _ (rooted_fall h)
      | exact stepOK_some _ (rooted_fall (rooted_fall h))
      | exact stepOK_some _ (rooted_rise _ (rooted_fall (rooted_fall h)))
      | exact stepOK_some _ (rooted_rise _ (rooted_fall (rooted_fall (rooted_fall h))))
      | exact stepOK_some _ (rooted_set _ h (fun hh => State.noConfusion hh))
      | exact stepOK_some _ (rooted_fall (rooted_set _ h (fun hh => State.noConfusion hh)))
      | exact stepOK_some _ (rooted_set _ ((rooted_cons _ _ _).mp h) (fun hh => State.noConfusion hh))
      | exact stepOK_some _ (rooted_fall ((rooted_cons _ _ _).mp h))
      | exact stepOK_some _ ((rooted_cons _ _ _).mp h)
      | exact stepOK_some _ ((rooted_cons _ _ _).mp ((rooted_cons _ _ _).mp h))
      | exact stepOK_some _ (rooted_fall ((rooted_cons _ _ _).mp ((rooted_cons _ _ _).mp h)))
      | exact absurd ((rooted_nil _).mp ((rooted_cons _ _ _).mp h)) (fun hh => State.noConfusion hh)

theorem stepRBrack_rooted (cur : State) (prev : List State) (out : List Nat) (b : Nat)
    (h : isRooted ⟨cur, prev⟩) : stepOK (MDS.stepRBrack ⟨cur, prev⟩ out b) := by
  cases cur
  all_goals try exact stepOK_some _ h
  all_goals
    obtain ⟨q, rest, rfl⟩ := rooted_prev_ne h (fun hh => State.noConfusion hh)
    simp only [MDS.stepRBrack, MDS.fall, litLink, hashLink, parenLink, brackLink,
      closeLink, nlLink, pushLink]
    repeat' split
    all_goals
      first
      | exact stepOK_some _ h
      | exact stepOK_some _ (rooted_fall h)
      | exact stepOK_some _ (rooted_fall (rooted_fall h))
      | exact stepOK_some _ (rooted_rise _ (rooted_fall (rooted_fall h)))
      | exact stepOK_some _ (rooted_rise _ (rooted_fall (rooted_fall (rooted_fall h))))
      | exact stepOK_some _ (rooted_set _ h (fun hh => State.noConfusion hh))
      | exact stepOK_some _ (rooted_fall (rooted_set _ h (fun hh => State.noConfusion hh)))
      | exact stepOK_some _ (rooted_set _ ((rooted_cons _ _ _).mp h) (fun hh => State.noConfusion hh))
      | exact stepOK_some _ (rooted_fall ((rooted_cons _ _ _).mp h))
      | exact stepOK_some _ ((rooted_cons _ _ _).mp h)
      | exact stepOK_some _ ((rooted_cons _ _ _).mp ((rooted_cons _ _ _).mp h))
      | exact stepOK_some _ (rooted_fall ((rooted_cons _ _ _).mp ((rooted_cons _ _ _).mp h)))
      | exact absurd ((rooted_nil _).mp ((rooted_cons _ _ _).mp h)) (fun hh => State.noConfusion hh)

theorem stepRParen_rooted (cur : State) (prev : List State) (out : List Nat) (b : Nat)
    (h : isRooted ⟨cur, prev⟩) : stepOK (MDS.stepRParen ⟨cur, prev⟩ out b) := by
  cases cur
  all_goals try exact stepOK_some _ h
  all_goals
    obtain ⟨q, rest, rfl⟩ := rooted_prev_ne h (fun hh => State.noConfusion hh)
    simp only [MDS.stepRParen, MDS.fall, litLink, hashLink, parenLink, brackLink,
      closeLink, nlLink, pushLink]
    repeat' split
    all_goals
      first
      | exact stepOK_some _ h
      | exact stepOK_some _ (rooted_fall h)
      | exact stepOK_some _ (rooted_fall (rooted_fall h))
      | exact stepOK_some _ (rooted_rise _ (rooted_fall (rooted_fall h)))
      | exact stepOK_some _ (rooted_rise _ (rooted_fall (rooted_fall (rooted_fall h))))
      | exact stepOK_some _ (rooted_set _ h (fun hh => State.noConfusion hh))
      | exact stepOK_some _ (rooted_fall (rooted_set _ h (fun hh => State.noConfusion hh)))
      | exact stepOK_some _ (rooted_set _ ((rooted_cons _ _ _).mp h) (fun hh => State.noConfusion hh))
      | exact stepOK_some _ (rooted_fall ((rooted_cons _ _ _).mp h))
      | exact stepOK_some _ ((rooted_cons _ _ _).mp h)
      | exact stepOK_some _ ((rooted_cons _ _ _).mp ((rooted_cons _ _ _).mp h))
      | exact stepOK_some _ (rooted_fall ((rooted_cons _ _ _).mp ((rooted_cons _ _ _).mp h)))
      | exact absurd ((rooted_nil _).mp ((rooted_cons _ _ _).mp h)) (fun hh => State.noConfusion hh)

theorem stepTick_rooted (cur : State) (prev : List State) (out : List Nat) (b : Nat)
    (h : isRooted ⟨cur, prev⟩) : stepOK (MDS.stepTick ⟨cur, prev⟩ out b) := by
  cases cur
  all_goals try exact stepOK_some _ h
  all_goals
    obtain ⟨q, rest, rfl⟩ := rooted_prev_ne h (fun hh => State.noConfusion hh)
    simp only [MDS.stepTick, MDS.fall, litLink, hashLink, parenLink, brackLink,
      closeLink, nlLink, pushLink]
    repeat' split
    all_goals
      first
      | exact stepOK_some _ h
      | exact stepOK_some _ (rooted_fall h)
      | exact stepOK_some _ (rooted_fall (rooted_fall h))
      | exact stepOK_some _ (rooted_rise _ (rooted_fall (rooted_fall h)))
      | exact stepOK_some _ (rooted_rise _ (rooted_fall (rooted_fall (rooted_fall h))))
      | exact stepOK_some _ (rooted_set _ h (fun hh => State.noConfusion hh))
      | exact stepOK_some _ (rooted_fall (rooted_set _ h (fun hh => State.noConfusion hh)))
      | exact stepOK_some _ (rooted_set _ ((rooted_cons _ _ _).mp h) (fun hh => State.noConfusion hh))
      | exact stepOK_some _ (rooted_fall ((rooted_cons _ _ _).mp h))
      | exact stepOK_some _ ((rooted_cons _ _ _).mp h)
      | exact stepOK_some _ ((rooted_cons _ _ _).mp ((rooted_cons _ _ _).mp h))
      | exact stepOK_some _ (rooted_fall ((rooted_cons _ _ _).mp ((rooted_cons _ _ _).mp h)))
      | exact absurd ((rooted_nil _).mp ((rooted_cons _ _ _).mp h)) (fun hh => State.noConfusion hh)

theorem stepStar_rooted (cur : State) (prev : List State) (out : List Nat) (b : Nat)
    (h : isRooted ⟨cur, prev⟩) : stepOK (MDS.stepStar ⟨cur, prev⟩ out b) := by
  cases cur
  all_goals try exact stepOK_some _ h
  all_goals
    obtain ⟨q, rest, rfl⟩ := rooted_prev_ne h (fun hh => State.noConfusion hh)
    simp only [MDS.stepStar, MDS.fall, litLink, hashLink, parenLink, brackLink,
      closeLink, nlLink, pushLink]
    repeat' split
    all_goals
      first
      | exact stepOK_some _ h
      | exact stepOK_some _ (rooted_fall h)
      | exact stepOK_some _ (rooted_fall (rooted_fall h))
      | exact stepOK_some _ (rooted_rise _ (rooted_fall (rooted_fall h)))
      | exact stepOK_some _ (rooted_rise _ (rooted_fall (rooted_fall (rooted_fall h))))
      | exact stepOK_some _ (rooted_set _ h (fun hh => State.noConfusion hh))
      | exact stepOK_some _ (rooted_fall (rooted_set _ h (fun hh => State.noConfusion hh)))
      | exact stepOK_some _ (rooted_set _ ((rooted_cons _ _ _).mp h) (fun hh => State.noConfusion hh))
      | exact stepOK_some _ (rooted_fall ((rooted_cons _ _ _).mp h))
      | exact stepOK_some _ ((rooted_cons _ _ _).mp h)
      | exact stepOK_some _ ((rooted_cons _ _ _).mp ((rooted_cons _ _ _).mp h))
      | exact stepOK_some _ (rooted_fall ((rooted_cons _ _ _).mp ((rooted_cons _ _ _).mp h)))
      | exact absurd ((rooted_nil _).mp ((rooted_cons _ _ _).mp h)) (fun hh => State.noConfusion hh)

theorem stepUnder_rooted (cur : State) (prev : List State) (out : List Nat) (b : Nat)
    (h : isRooted ⟨cur, prev⟩) : stepOK (MDS.stepUnder ⟨cur, prev⟩ out b) := by
  cases cur
  all_goals try exact stepOK_some _ h
  all_goals
    obtain ⟨q, rest, rfl⟩ := rooted_prev_ne h (fun hh => State.noConfusion hh)
    simp only [MDS.stepUnder, MDS.fall, litLink, hashLink, parenLink, brackLink,
      closeLink, nlLink, pushLink]
    repeat' split
    all_goals
      first
      | exact stepOK_some _ h
      | exact stepOK_some _ (rooted_fall h)
      | exact stepOK_some _ (rooted_fall (rooted_fall h))
      | exact stepOK_some _ (rooted_rise _ (rooted_fall (rooted_fall h)))
      | exact stepOK_some _ (rooted_rise _ (rooted_fall (rooted_fall (rooted_fall h))))
      | exact stepOK_some _ (rooted_set _ h (fun hh => State.noConfusion hh))
      | exact stepOK_some _ (rooted_fall (rooted_set _ h (fun hh => State.noConfusion hh)))
      | exact stepOK_some _ (rooted_set _ ((rooted_cons _ _ _).mp h) (fun hh => State.noConfusion hh))
      | exact stepOK_some _ (rooted_fall ((rooted_cons _ _ _).mp h))
      | exact stepOK_some _ ((rooted_cons _ _ _).mp h)
      | exact stepOK_some _ ((rooted_cons _ _ _).mp ((rooted_cons _ _ _).mp h))
      | exact stepOK_some _ (rooted_fall ((rooted_cons _ _ _).mp ((rooted_cons _ _ _).mp h)))
      | exact absurd ((rooted_nil _).mp ((rooted_cons _ _ _).mp h)) (fun hh => State.noConfusion hh)

theorem stepDash_rooted (cur : State) (prev : List State) (out : List Nat) (b : Nat)
    (h : isRooted ⟨cur, prev⟩) : stepOK (MDS.stepDash ⟨cur, prev⟩ out b) := by
  cases cur
  all_goals try exact stepOK_some _ h
  all_goals
    obtain ⟨q, rest, rfl⟩ := rooted_prev_ne h (fun hh => State.noConfusion hh)
    simp only [MDS.stepDash, MDS.fall, litLink, hashLink, parenLink, brackLink,
      closeLink, nlLink, pushLink]
    repeat' split
    all_goals
      first
      | exact stepOK_some _ h
      | exact stepOK_some _ (rooted_fall h)
      | exact stepOK_some _ (rooted_fall (rooted_fall h))
      | exact stepOK_some _ (rooted_rise _ (rooted_fall (rooted_fall h)))
      | exact stepOK_some _ (rooted_rise _ (rooted_fall (rooted_fall (rooted_fall h))))
      | exact stepOK_some _ (rooted_set _ h (fun hh => State.noConfusion hh))
      | exact stepOK_some _ (rooted_fall (rooted_set _ h (fun hh => State.noConfusion hh)))
      | exact stepOK_some _ (rooted_set _ ((rooted_cons _ _ _).mp h) (fun hh => State.noConfusion hh))
      | exact stepOK_some _ (rooted_fall ((rooted_cons _ _ _).mp h))
      | exact stepOK_some _ ((rooted_cons _ _ _).mp h)
      | exact stepOK_some _ ((rooted_cons _ _ _).mp ((rooted_cons _ _ _).mp h))
      | exact stepOK_some _ (rooted_fall ((rooted_cons _ _ _).mp ((rooted_cons _ _ _).mp h)))
      | exact absurd ((rooted_nil _).mp ((rooted_cons _ _ _).mp h)) (fun hh => State.noConfusion hh)

theorem stepNewline_rooted (cur : State) (prev : List State) (out : List Nat) (b : Nat)
    (h : isRooted ⟨cur, prev⟩) : stepOK (MDS.stepNewline ⟨cur, prev⟩ out b) := by
  cases cur
  all_goals try exact stepOK_some _ h
  case code ls n =>
    obtain ⟨q, rest, rfl⟩ := rooted_prev_ne h (fun hh => State.noConfusion hh)
    obtain ⟨m2, o2, heq2, hr2⟩ :=
      unwindCode_rooted rest q (out ++ TAG_CODEI_C) ((rooted_cons _ _ _).mp h)
    simp only [MDS.stepNewline, MDS.fall, heq2]
    repeat' split
    all_goals
      first
      | exact stepOK_some _ h
      | exact stepOK_some _ hr2
      | exact stepOK_some _ (rooted_fall h)
  case exclamation =>
    obtain ⟨q, rest, rfl⟩ := rooted_prev_ne h (fun hh => State.noConfusion hh)
    simp only [MDS.stepNewline, MDS.fall]
    exact exclNl_rooted _ _ _ _ ((rooted_cons _ _ _).mp h)
  all_goals
    obtain ⟨q, rest, rfl⟩ := rooted_prev_ne h (fun hh => State.noConfusion hh)
    simp only [MDS.stepNewline, MDS.fall, nlLink]
    repeat' split
    all_goals
      first
      | exact stepOK_some _ h
      | exact stepOK_some _ (rooted_fall h)
      | exact stepOK_some _ (rooted_fall (rooted_fall h))
      | exact stepOK_some _ (rooted_rise _ (rooted_fall (rooted_fall h)))
      | exact stepOK_some _ (rooted_rise _ (rooted_fall (rooted_fall (rooted_fall h))))
      | exact stepOK_some _ (rooted_set _ h (fun hh => State.noConfusion hh))
      | exact stepOK_some _ (rooted_fall (rooted_set _ h (fun hh => State.noConfusion hh)))
      | exact stepOK_some _ (rooted_set _ ((rooted_cons _ _ _).mp h) (fun hh => State.noConfusion hh))
      | exact stepOK_some _ (rooted_fall ((rooted_cons _ _ _).mp h))
      | exact stepOK_some _ ((rooted_cons _ _ _).mp h)
      | exact stepOK_some _ ((rooted_cons _ _ _).mp ((rooted_cons _ _ _).mp h))
      | exact stepOK_some _ (rooted_fall ((rooted_cons _ _ _).mp ((rooted_cons _ _ _).mp h)))
      | exact absurd ((rooted_nil _).mp ((rooted_cons _ _ _).mp h)) (fun hh => State.noConfusion hh)

theorem step_eq_lit (m : MDS) (out : List Nat) (b : Nat) (hb : isLit b = true) :
    MDS.step m out b = MDS.stepLit m out b := by
  simp [MDS.step, hb]

theorem step_eq_other (m : MDS) (out : List Nat) (b : Nat) (hL : isLit b = false)
    (h33 : b ≠ 33) (h92 : b ≠ 92) (h35 : b ≠ 35) (h32 : b ≠ 32) (h91 : b ≠ 91)
    (h40 : b ≠ 40) (h93 : b ≠ 93) (h41 : b ≠ 41) (h13 : b ≠ 13) (h10 : b ≠ 10)
    (h96 : b ≠ 96) (h42 : b ≠ 42) (h95 : b ≠ 95) (h45 : b ≠ 45) :
    MDS.step m out b = some (m, out ++ [b]) := by
  simp [MDS.step, hL, h33, h92, h35, h32, h91, h40, h93, h41, h13, h10, h96, h42, h95, h45]

theorem step_at_33 (m : MDS) (out : List Nat) : MDS.step m out 33 = MDS.stepBang m out 33 := by
  simp [MDS.step, isLit]

theorem step_at_92 (m : MDS) (out : List Nat) : MDS.step m out 92 = MDS.stepBackslash m out 92 := by
  simp [MDS.step, isLit]

theorem step_at_35 (m : MDS) (out : List Nat) : MDS.step m out 35 = MDS.stepHash m out 35 := by
  simp [MDS.step, isLit]

theorem step_at_32 (m : MDS) (out : List Nat) : MDS.step m out 32 = MDS.stepSpace m out 32 := by
  simp [MDS.step, isLit]

theorem step_at_91 (m : MDS) (out : List Nat) : MDS.step m out 91 = MDS.stepLBrack m out 91 := by
  simp [MDS.step, isLit]

theorem step_at_40 (m : MDS) (out : List Nat) : MDS.step m out 40 = MDS.stepLParen m out 40 := by
  simp [MDS.step, isLit]

theorem step_at_93 (m : MDS) (out : List Nat) : MDS.step m out 93 = MDS.stepRBrack m out 93 := by
  simp [MDS.step, isLit]

theorem step_at_41 (m : MDS) (out : List Nat) : MDS.step m out 41 = MDS.stepRParen m out 41 := by
  simp [MDS.step, isLit]

theorem step_at_13 (m : MDS) (out : List Nat) : MDS.step m out 13 = MDS.stepNewline m out 13 := by
  simp [MDS.step, isLit]

theorem step_at_10 (m : MDS) (out : List Nat) : MDS.step m out 10 = MDS.stepNewline m out 10 := by
  simp [MDS.step, isLit]

theorem step_at_96 (m : MDS) (out : List Nat) : MDS.step m out 96 = MDS.stepTick m out 96 := by
  simp [MDS.step, isLit]

theorem step_at_42 (m : MDS) (out : List Nat) : MDS.step m out 42 = MDS.stepStar m out 42 := by
  simp [MDS.step, isLit]

theorem step_at_95 (m : MDS) (out : List Nat) : MDS.step m out 95 = MDS.stepUnder m out 95 := by
  simp [MDS.step, isLit]

theorem step_at_45 (m : MDS) (out : List Nat) : MDS.step m out 45 = MDS.stepDash m out 45 := by
  simp [MDS.step, isLit]

/-- Every dispatch step from a rooted machine succeeds (neither inner
loop diverges) and preserves rootedness. -/
theorem step_rooted (cur : State) (prev : List State) (out : List Nat) (b : Nat)
    (h : isRooted ⟨cur, prev⟩) : stepOK (MDS.step ⟨cur, prev⟩ out b) := by
  by_cases hL : isLit b = true
  · rw [step_eq_lit _ _ _ hL]
    exact stepLit_rooted _ _ _ _ h
  by_cases h33 : b = 33
  · subst h33; rw [step_at_33]; exact stepBang_rooted _ _ _ _ h
  by_cases h92 : b = 92
  · subst h92; rw [step_at_92]; exact stepBackslash_rooted _ _ _ _ h
  by_cases h35 : b = 35
  · subst h35; rw [step_at_35]; exact stepHash_rooted _ _ _ _ h
  by_cases h32 : b = 32
  · subst h32; rw [step_at_32]; exact stepSpace_rooted _ _ _ _ h
  by_cases h91 : b = 91
  · subst h91; rw [step_at_91]; exact stepLBrack_rooted _ _ _ _ h
  by_cases h40 : b = 40
  · subst h40; rw [step_at_40]; exact stepLParen_rooted _ _ _ _ h
  by_cases h93 : b = 93
  · subst h93; rw [step_at_93]; exact stepRBrack_rooted _ _ _ _ h
  by_cases h41 : b = 41
  · subst h41; rw [step_at_41]; exact stepRParen_rooted _ _ _ _ h
  by_cases h13 : b = 13
  · subst h13; rw [step_at_13]; exact stepNewline_rooted _ _ _ _ h
  by_cases h10 : b = 10
  · subst h10; rw [step_at_10]; exact stepNewline_rooted _ _ _ _ h
  by_cases h96 : b = 96
  · subst h96; rw [step_at_96]; exact stepTick_rooted _ _ _ _ h
  by_cases h42 : b = 42
  · subst h42; rw [step_at_42]; exact stepStar_rooted _ _ _ _ h
  by_cases h95 : b = 95
  · subst h95; rw [step_at_95]; exact stepUnder_rooted _ _ _ _ h
  by_cases h45 : b = 45
  · subst h45; rw [step_at_45]; exact stepDash_rooted _ _ _ _ h
  rw [step_eq_other _ _ _ (by simpa using hL) h33 h92 h35 h32 h91 h40 h93 h41 h13 h10
    h96 h42 h95 h45]
  exact stepOK_some _ h

theorem run_rooted : ∀ (bs : List Nat) (m : MDS) (out : List Nat), isRooted m →
    ∃ m' o', MDS.run bs m out = some (m', o') ∧ isRooted m' := by
  intro bs
  induction bs with
  | nil => intro m out h; exact ⟨m, out, rfl, h⟩
  | cons b rest ih =>
    intro m out h
    obtain ⟨cur, prev⟩ := m
    obtain ⟨m1, o1, heq, h1⟩ := step_rooted cur prev out b h
    obtain ⟨m2, o2, heq2, h2⟩ := ih m1 o1 h1
    exact ⟨m2, o2, by simp only [MDS.run, heq, heq2], h2⟩

/-- C1: for every input byte sequence, `MDS.parse` terminates and returns
a byte sequence: the fold over the input always yields `some`, i.e. the
inner unwind loops always exit (the root invariant guarantees the bottom
frame is `State.none`, so the loop guards eventually fail) and no
arithmetic aborts the translation (`u8` arithmetic, e.g. the `Hor` dash
counter increment, is modelled with release-profile wraparound `% 256`). -/
theorem parse_total (bytes : List Nat) : ∃ out, MDS.parse bytes = some out := by
  obtain ⟨m, o, heq, _⟩ := run_rooted bytes ⟨State.none, []⟩ [] rfl
  exact ⟨MDS.finish m o, by simp only [MDS.parse, heq]⟩

/-- C7: the state machine reached after consuming any input prefix still
has the root frame (`State.none`, created at call start) at the bottom
of its `previous` chain: the stack is never empty (a machine always has
a `current` frame) and no dispatch rule pops the root. -/
theorem root_never_popped (bytes : List Nat) :
    ∃ m out, MDS.run bytes ⟨State.none, []⟩ [] = some (m, out) ∧
      bottomOf m.current m.previous = State.none := by
  obtain ⟨m, o, heq, hr⟩ := run_rooted bytes ⟨State.none, []⟩ [] rfl
  exact ⟨m, o, heq, hr⟩

/-- Whether the pattern (first argument) occurs at the start of the list. -/
def leadsWith : List Nat → List Nat → Bool
  | [], _ => true
  | _ :: _, [] => false
  | a :: as, c :: cs => a == c && leadsWith as cs

/-- Whether the pattern occurs contiguously anywhere in the list. -/
def hasSub (p : List Nat) : List Nat → Bool
  | [] => leadsWith p []
  | c :: cs => leadsWith p (c :: cs) || hasSub p cs

theorem step_lit_paragraph (prev : List State) (out : List Nat) (b : Nat)
    (hb : isLit b = true) :
    MDS.step ⟨State.paragraph, prev⟩ out b = some (⟨State.paragraph, prev⟩, out ++ [b]) := by
  rw [step_eq_lit _ _ _ hb]
  rfl

theorem run_lit (bs : List Nat) : ∀ (prev : List State) (out : List Nat),
    (∀ b ∈ bs, isLit b = true) →
    MDS.run bs ⟨State.paragraph, prev⟩ out = some (⟨State.paragraph, prev⟩, out ++ bs) := by
  induction bs with
  | nil => intro prev out _; simp [MDS.run]
  | cons b rest ih =>
    intro prev out hb
    have h1 := step_lit_paragraph prev out b (hb b (by simp))
    simp only [MDS.run, h1]
    rw [ih prev (out ++ [b]) (fun x hx => hb x (by simp [hx]))]
    simp

/-- C6: a non-empty input all of whose bytes are in the literal class of
the byte classifier (no Markdown metacharacter, no newline) is passed
through verbatim wrapped in exactly one paragraph:
`parse bs = "<p>" ++ bs ++ "</p>"`. -/
theorem plain_text_paragraph (bs : List Nat) (h1 : bs ≠ [])
    (h2 : ∀ b ∈ bs, isLit b = true) :
    MDS.parse bs = some (TAG_P_O ++ bs ++ TAG_P_C) := by
  obtain ⟨b, rest, rfl⟩ := List.exists_cons_of_ne_nil h1
  have hb : isLit b = true := h2 b (by simp)
  have hstep : MDS.step ⟨State.none, []⟩ [] b
      = some (⟨State.paragraph, [State.none]⟩, TAG_P_O ++ [b]) := by
    rw [step_eq_lit _ _ _ hb]
    rfl
  have hrun := run_lit rest [State.none] (TAG_P_O ++ [b])
    (fun x hx => h2 x (by simp [hx]))
  simp only [MDS.parse, MDS.run, hstep, hrun, MDS.finish]
  simp [MDS.is_ulist, MDS.is_paragraph, MDS.is_intend, MDS.fall]

/-- C6 witness: the plain word "hello". -/
theorem plain_text_paragraph_witness :
    MDS.parse (sb "hello") = some (TAG_P_O ++ sb "hello" ++ TAG_P_C) :=
  plain_text_paragraph (sb "hello") (by decide) (by decide)

/-- C2 counterexample: on the exact input `[text](http://x)` the parser
does not return `<p><a href="http://x">text</a></p>`: the `[` arm that
opens a link from the root state never opens a paragraph, so no `<p>`
wrapper is emitted. -/
theorem link_roundtrip_cex :
    MDS.parse (sb "[text](http://x)") ≠ some (sb "<p><a href=\"http://x\">text</a></p>") := by
  decide

/-- C2 amended: `parse "[text](http://x)"` returns exactly
`<a href="http://x">text</a>` — the anchor with the url in `href` and
the alt text as content, but with no paragraph wrapper. -/
theorem link_roundtrip_amended :
    MDS.parse (sb "[text](http://x)") = some (sb "<a href=\"http://x\">text</a>") := by
  decide

/-- C3 counterexample: the output for `- a\n- b\n` contains `<p>` and
`</p>` wrapping the list (the claim says the `<p>` machinery never wraps
list content): the output starts with `<p><ul>` and ends with
`</ul></p>`. -/
theorem list_p_wrapped_cex :
    hasSub (sb "<p><ul>") ((MDS.parse (sb "- a\n- b\n")).getD []) = true ∧
    hasSub (sb "</ul></p>") ((MDS.parse (sb "- a\n- b\n")).getD []) = true := by
  decide

/-- C3 amended: `parse "- a\n- b\n"` produces one `<ul>` containing the
two `<li>` items in input order with `</ul>` emitted exactly once, but
the whole list is wrapped in a paragraph: the output is exactly
`<p><ul><li>a</li>\n<li>b</li>\n</ul></p>`. -/
theorem list_two_items_amended :
    MDS.parse (sb "- a\n- b\n")
      = some (sb "<p><ul><li>a</li>\n<li>b</li>\n</ul></p>") := by
  decide

/-- C4 counterexample: for `[a](x y)` the `%20` does not end up inside
the href attribute (the url buffer is left untouched, so the href is
`xy`, not `x%20y`); the `%20` is written straight to the output, before
the anchor tag. -/
theorem link_space_href_cex :
    MDS.parse (sb "[a](x y)") = some (sb "%20<a href=\"xy\">a</a>") ∧
    hasSub (sb "x%20y") ((MDS.parse (sb "[a](x y)")).getD []) = false := by
  decide

/-- C4 amended: a space byte arriving while the top frame is a Link with
UrlPending status writes the three bytes `%20` directly to the output
buffer (they end up before the anchor tag, not inside its href), leaves
the machine — in particular the url buffer — unchanged, and emits no
literal space for it. -/
theorem link_space_to_output_amended (ld : Linkdata) (prev : List State) (out : List Nat)
    (h : ld.status = Linkstatus.link) :
    MDS.step ⟨State.link ld, prev⟩ out 32 = some (⟨State.link ld, prev⟩, out ++ sb "%20") := by
  have hl : ld.status.is_link = true := by rw [h]; rfl
  rw [step_at_32]
  simp [MDS.stepSpace, hl]

/-- C4 witness: a concrete Link frame between `(` and `)`. -/
theorem link_space_to_output_witness :
    MDS.step ⟨State.link ⟨Linkstatus.link, sb "a", sb "x"⟩, [State.none]⟩ [] 32
      = some (⟨State.link ⟨Linkstatus.link, sb "a", sb "x"⟩, [State.none]⟩, sb "%20") :=
  link_space_to_output_amended ⟨Linkstatus.link, sb "a", sb "x"⟩ [State.none] [] rfl

/-- C5 counterexample: `parse "_a_"` is not `<p><u>a</u></p>`: the `_`
that opens the Underline construct from a plain-text context emits no
`<u>` tag. -/
theorem underscore_balanced_cex :
    MDS.parse (sb "_a_") ≠ some (sb "<p><u>a</u></p>") := by
  decide

/-- C5 amended: successive `_` bytes do toggle the Underline frame
open/closed, but the opening `_` (arriving at the root or inside a
paragraph) emits no `<u>` while the matching `_` emits `</u>`, so the
tags are unbalanced: `parse "_a_"` is exactly `<p>a</u></p>`. -/
theorem underscore_unbalanced_amended :
    MDS.parse (sb "_a_") = some (sb "<p>a</u></p>") := by
  decide

/-- C8: calling `fall` when only the root frame remains (`previous` is
empty) returns the machine unchanged — same current state, still the
root; it is a non-fatal no-op (the source prints a diagnostic on the
reporting channel and aborts nothing, and the output buffer is not an
input of `fall`, so it cannot be modified). -/
theorem fall_root_noop (m : MDS) (h : m.previous = []) : m.fall = m := by
  obtain ⟨c, prev⟩ := m
  subst h
  rfl

/-- C8 witness: falling on the fresh root machine. -/
theorem fall_root_noop_witness : (⟨State.none, []⟩ : MDS).fall = ⟨State.none, []⟩ :=
  fall_root_noop ⟨State.none, []⟩ rfl

/-- C9: the byte 0x5E (`^`) is outside the literal byte class and has no
dedicated arm, so for every machine it reaches the final catch-all and
is appended verbatim to the output; in particular a `^` between `[` and
`]` of a link goes to the output, not into the alt buffer (the alt of
`[a^b](u)` ends up being `ab` while `^` leaks out in front of the
anchor). -/
theorem caret_catch_all :
    (∀ (m : MDS) (out : List Nat), MDS.step m out 94 = some (m, out ++ [94])) ∧
    MDS.parse (sb "[a^b](u)") = some (sb "^<a href=\"u\">ab</a>") := by
  constructor
  · intro m out
    exact step_eq_other m out 94 (by decide) (by decide) (by decide) (by decide)
      (by decide) (by decide) (by decide) (by decide) (by decide) (by decide)
      (by decide) (by decide) (by decide) (by decide) (by decide)
  · decide

/-- C10: the single byte `!` parses to the empty byte sequence: the `!`
is buffered in the Exclamation frame and the end-of-input unwind never
flushes it, so a non-empty input produces empty output. -/
theorem bang_empty_output : MDS.parse (sb "!") = some [] := by
  decide
